import Mathlib

/-!
Verification development for the basic context manager
(`src/examples/basic_context_manager.py`).

The Python program is shallowly embedded:
* Python `float` values become `ℚ` (all arithmetic in the program is on
  small decimal constants, lengths and counts);
* Python `int(x)` (truncation toward zero) becomes `pyTrunc`;
* Python `dict` (insertion-ordered, unique keys) becomes an association
  list `TierMap` whose operations preserve insertion order exactly as
  CPython dictionaries do;
* wall-clock time (`datetime.now()`) becomes an explicit `now : ℚ`
  parameter counting seconds;
* the md5-based id generator `_generate_segment_id` becomes an explicit
  `segment_id` parameter (the program relies on these ids being fresh);
* in-place mutation of shared `ContextSegment` objects becomes explicit
  state passing: an operation returns the updated manager state.
-/

namespace BasicContextManager

/-- Python `int(x)` conversion applied to a rational: truncation toward zero. -/
def pyTrunc (q : ℚ) : ℤ := if 0 ≤ q then ⌊q⌋ else -⌊-q⌋

/-- `ContextSegment` dataclass: one stored unit of context content
(`metadata : Dict[str, Any]` is embedded as a key/value list; the program
never reads it). -/
structure ContextSegment where
  id : String
  content : String
  metadata : List (String × String)
  timestamp : ℚ
  relevance_score : ℚ
  access_count : ℕ
  compression_ratio : ℚ
  deriving Repr, DecidableEq

/-- `ContextMetrics` dataclass. -/
structure ContextMetrics where
  total_segments : ℤ
  active_segments : ℕ
  total_size_bytes : ℕ
  compression_ratio : ℚ
  cache_hit_rate : ℚ
  average_retrieval_time_ms : ℚ
  memory_usage_bytes : ℕ
  deriving Repr, DecidableEq

/-- `MemoryTier.ACTIVE`. -/
def MemoryTier.ACTIVE : String := "active"

/-- `MemoryTier.WORKING`. -/
def MemoryTier.WORKING : String := "working"

/-- `MemoryTier.LONG_TERM`. -/
def MemoryTier.LONG_TERM : String := "long_term"

/-- `ContextConfig` dataclass with its default field values. -/
structure ContextConfig where
  max_context_size : ℕ := 32000
  working_memory_size : ℕ := 128000
  compression_strategy : String := "adaptive"
  compression_target_ratio : ℚ := 3/10
  compression_quality_threshold : ℚ := 8/10
  retrieval_strategy : String := "hybrid"
  similarity_threshold : ℚ := 7/10
  max_retrieval_results : ℕ := 20
  cleanup_interval_minutes : ℕ := 60
  metrics_enabled : Bool := true
  deriving Repr, DecidableEq

/-- Python slicing `s[:k]` for an `int` index `k` (possibly negative):
`k ≥ 0` keeps the first `min k (len s)` characters, `k < 0` means
`s[:len s + k]`, empty when `len s + k ≤ 0`. -/
def pySliceTo (s : String) (k : ℤ) : String :=
  if 0 ≤ k then ⟨s.data.take k.toNat⟩ else ⟨s.data.take (s.length - (-k).toNat)⟩

/-- Python slicing `s[-k:]`, used below only with `k ≥ 1`: the last
`min k (len s)` characters. -/
def pySliceLast (s : String) (k : ℤ) : String :=
  ⟨s.data.drop (s.length - k.toNat)⟩

/-- `BasicCompressionEngine.compress`: truncate to the target ratio,
keeping the head (70% of the budget) and the tail, joined by the marker. -/
def BasicCompressionEngine.compress (content : String) (target_ratio : ℚ) : String :=
  let target_length : ℤ := pyTrunc ((content.length : ℚ) * target_ratio)
  if (content.length : ℤ) ≤ target_length then content
  else
    let keep_start : ℤ := pyTrunc ((target_length : ℚ) * (7/10))
    let keep_end : ℤ := target_length - keep_start
    if 0 < keep_end then
      pySliceTo content keep_start ++ "...[truncated]..." ++ pySliceLast content keep_end
    else
      pySliceTo content keep_start ++ "...[truncated]"

/-- `BasicCompressionEngine.decompress`: returns its input unchanged. -/
def BasicCompressionEngine.decompress (compressed_content : String) : String :=
  compressed_content

/-- `BasicCompressionEngine.get_compression_ratio`:
`len(compressed)/len(original)`, and `1.0` when the original is empty. -/
def BasicCompressionEngine.get_compression_ratio (original compressed : String) : ℚ :=
  if 0 < original.length then (compressed.length : ℚ) / (original.length : ℚ) else 1

/-- Splitting a character list on whitespace runs with Python `str.split()`
semantics: maximal non-whitespace runs become the words, leading, trailing
and repeated separators produce nothing. `acc` holds the reversed current
word. -/
def pySplitWsAux (l : List Char) (acc : List Char) : List String :=
  match l with
  | [] => if acc = [] then [] else [⟨acc.reverse⟩]
  | c :: cs =>
    if c.isWhitespace then
      if acc = [] then pySplitWsAux cs [] else ⟨acc.reverse⟩ :: pySplitWsAux cs []
    else pySplitWsAux cs (c :: acc)

/-- Python `s.lower().split()`: lower-case the characters, then split on
whitespace runs. -/
def pyWords (s : String) : List String :=
  pySplitWsAux (s.data.map Char.toLower) []

/-- `set(query.lower().split())`, embedded as a duplicate-free list. -/
def queryWordSet (query : String) : List String := (pyWords query).dedup

/-- `set(segment.content.lower().split())`, embedded as a duplicate-free list. -/
def contentWordSet (content : String) : List String := (pyWords content).dedup

/-- `len(query_words.intersection(content_words))` for a duplicate-free
`query_words`. -/
def overlapCount (query_words : List String) (content : String) : ℕ :=
  (query_words.filter (fun w => decide (w ∈ contentWordSet content))).length

/-- `overlap / len(query_words)`. -/
def overlapScore (query_words : List String) (content : String) : ℚ :=
  (overlapCount query_words content : ℚ) / (query_words.length : ℚ)

/-- One insertion step of the stable descending sort: place `s` before the
first element whose key is strictly smaller, after all elements with an
equal or larger key. -/
def insertDescBy (key : ContextSegment → ℚ) (s : ContextSegment) :
    List ContextSegment → List ContextSegment
  | [] => [s]
  | t :: ts => if key t < key s then s :: t :: ts else t :: insertDescBy key s ts

/-- Python `list.sort(key=..., reverse=True)`: the unique stable descending
sort by `key` (ties keep their original relative order). -/
def sortDescBy (key : ContextSegment → ℚ) (l : List ContextSegment) : List ContextSegment :=
  l.foldl (fun acc s => insertDescBy key s acc) []

/-- The per-segment effect of the retrieval loop body: when the overlap is
positive the loop writes `overlap / len(query_words)` onto
`segment.relevance_score` (in place), otherwise the segment is untouched. -/
def updateSegScore (query_words : List String) (seg : ContextSegment) : ContextSegment :=
  if 0 < overlapCount query_words seg.content then
    { seg with relevance_score := overlapScore query_words seg.content }
  else seg

/-- `scored_segments` as built by the loop in `BasicRetrievalEngine.retrieve`:
exactly the candidates with positive overlap, each carrying its new score. -/
def scoredSegments (query : String) (segments : List ContextSegment) : List ContextSegment :=
  segments.filterMap (fun seg =>
    if 0 < overlapCount (queryWordSet query) seg.content
    then some (updateSegScore (queryWordSet query) seg)
    else none)

/-- The list returned by `BasicRetrievalEngine.retrieve`: the scored
candidates, stably sorted descending by `relevance_score`, truncated to
`limit`. -/
def BasicRetrievalEngine.retrieveRanked (query : String) (segments : List ContextSegment)
    (limit : ℕ) : List ContextSegment :=
  (sortDescBy (fun s => s.relevance_score) (scoredSegments query segments)).take limit

/-- The side effect of `BasicRetrievalEngine.retrieve` on the candidate
list (the score writes are visible through the shared segment objects). -/
def updatedCandidates (query : String) (segments : List ContextSegment) :
    List ContextSegment :=
  segments.map (updateSegScore (queryWordSet query))

/-- One memory tier: a CPython `dict` keyed by segment id, embedded as an
insertion-ordered association list. -/
abbrev TierMap := List (String × ContextSegment)

/-- The keys of a tier, in insertion order. -/
def tmKeys (m : TierMap) : List String := m.map Prod.fst

/-- `dict.get(segment_id)`. -/
def tmGet (m : TierMap) (segment_id : String) : Option ContextSegment :=
  (m.find? (fun p => decide (p.1 = segment_id))).map Prod.snd

/-- `dict[segment_id] = s`: overwrite in place when the key is present
(keeping its position, as CPython dicts do), append otherwise. -/
def tmInsert (m : TierMap) (segment_id : String) (s : ContextSegment) : TierMap :=
  if segment_id ∈ tmKeys m then
    m.map (fun p => if p.1 = segment_id then (segment_id, s) else p)
  else m ++ [(segment_id, s)]

/-- `dict.pop(segment_id, None)`, keeping only the removal effect. -/
def tmErase (m : TierMap) (segment_id : String) : TierMap :=
  m.filter (fun p => decide (p.1 ≠ segment_id))

/-- `list(dict.values())`: the stored segments in insertion order. -/
def tmValues (m : TierMap) : List ContextSegment := m.map Prod.snd

/-- `MemoryManager`: the three tier dictionaries. (The `config` field the
Python constructor stores is never read by any `MemoryManager` method and
is omitted.) -/
structure MemoryManager where
  active_memory : TierMap
  working_memory : TierMap
  long_term_memory : TierMap
  deriving Repr, DecidableEq

/-- `MemoryManager.store`: insert or overwrite by id in the named tier and
return the id; `ValueError` on an unrecognized tier name is embedded as
`Except.error`. -/
def MemoryManager.store (mm : MemoryManager) (tier : String) (segment : ContextSegment) :
    Except String (MemoryManager × String) :=
  if tier = MemoryTier.ACTIVE then
    .ok ({ mm with active_memory := tmInsert mm.active_memory segment.id segment }, segment.id)
  else if tier = MemoryTier.WORKING then
    .ok ({ mm with working_memory := tmInsert mm.working_memory segment.id segment }, segment.id)
  else if tier = MemoryTier.LONG_TERM then
    .ok ({ mm with long_term_memory := tmInsert mm.long_term_memory segment.id segment }, segment.id)
  else
    .error ("Unknown memory tier: " ++ tier)

/-- `MemoryManager.retrieve`: look the id up in the named tier (an
unrecognized tier returns `None` at once); on a hit increment
`access_count` in place — the mutation is visible through the owning
dictionary, so the updated manager is returned alongside the segment. -/
def MemoryManager.retrieve (mm : MemoryManager) (tier : String) (segment_id : String) :
    MemoryManager × Option ContextSegment :=
  let seg? : Option ContextSegment :=
    if tier = MemoryTier.ACTIVE then tmGet mm.active_memory segment_id
    else if tier = MemoryTier.WORKING then tmGet mm.working_memory segment_id
    else if tier = MemoryTier.LONG_TERM then tmGet mm.long_term_memory segment_id
    else none
  match seg? with
  | none => (mm, none)
  | some segment =>
      let seg' := { segment with access_count := segment.access_count + 1 }
      let mm' :=
        if tier = MemoryTier.ACTIVE then
          { mm with active_memory := tmInsert mm.active_memory segment_id seg' }
        else if tier = MemoryTier.WORKING then
          { mm with working_memory := tmInsert mm.working_memory segment_id seg' }
        else
          { mm with long_term_memory := tmInsert mm.long_term_memory segment_id seg' }
      (mm', some seg')

/-- `MemoryManager.delete`: remove by id from the named tier, reporting
whether a deletion occurred; an unrecognized tier returns `False`. -/
def MemoryManager.delete (mm : MemoryManager) (tier : String) (segment_id : String) :
    MemoryManager × Bool :=
  if tier = MemoryTier.ACTIVE then
    ({ mm with active_memory := tmErase mm.active_memory segment_id },
      decide (segment_id ∈ tmKeys mm.active_memory))
  else if tier = MemoryTier.WORKING then
    ({ mm with working_memory := tmErase mm.working_memory segment_id },
      decide (segment_id ∈ tmKeys mm.working_memory))
  else if tier = MemoryTier.LONG_TERM then
    ({ mm with long_term_memory := tmErase mm.long_term_memory segment_id },
      decide (segment_id ∈ tmKeys mm.long_term_memory))
  else (mm, false)

/-- `MemoryManager.get_all_segments`: a copied-out snapshot of the named
tier's values; `[]` for an unrecognized tier. -/
def MemoryManager.get_all_segments (mm : MemoryManager) (tier : String) :
    List ContextSegment :=
  if tier = MemoryTier.ACTIVE then tmValues mm.active_memory
  else if tier = MemoryTier.WORKING then tmValues mm.working_memory
  else if tier = MemoryTier.LONG_TERM then tmValues mm.long_term_memory
  else []

/-- `ContextManager` state: configuration, tier store, metrics and the
last-cleanup timestamp. The engines are the fixed `BasicCompressionEngine`
and `BasicRetrievalEngine` the constructor installs. -/
structure ContextManager where
  config : ContextConfig
  memory_manager : MemoryManager
  metrics : ContextMetrics
  last_cleanup : ℚ
  deriving Repr, DecidableEq

/-- `ContextManager.__init__` at wall-clock time `now`. -/
def ContextManager.init (config : ContextConfig) (now : ℚ) : ContextManager :=
  { config := config
    memory_manager := { active_memory := [], working_memory := [], long_term_memory := [] }
    metrics :=
      { total_segments := 0, active_segments := 0, total_size_bytes := 0
        compression_ratio := 1, cache_hit_rate := 0
        average_retrieval_time_ms := 0, memory_usage_bytes := 0 }
    last_cleanup := now }

/-- Adapter for the controller's `store` call sites: the controller only
ever passes the three valid tier constants, so `store` never errors there;
the (unreachable) error branch leaves the state unchanged. -/
def storeKnown (mm : MemoryManager) (tier : String) (segment : ContextSegment) :
    MemoryManager :=
  match mm.store tier segment with
  | .ok (mm', _) => mm'
  | .error _ => mm

/-- The `score_segment` closure inside `_optimize_active_memory`:
`relevance_score * (1 / (1 + ageHours)) * access_count`. -/
def score_segment (now : ℚ) (segment : ContextSegment) : ℚ :=
  let time_decay := (now - segment.timestamp) / 3600
  segment.relevance_score * (1 / (1 + time_decay)) * (segment.access_count : ℚ)

/-- `ContextManager._optimize_active_memory`: sort the active segments by
composite score (stable, descending), keep the top `int(n * 0.6)`, and
move the rest to working memory (delete from active, store into working). -/
def ContextManager.optimize_active_memory (cm : ContextManager) (now : ℚ) :
    ContextManager :=
  let active_segments := cm.memory_manager.get_all_segments MemoryTier.ACTIVE
  let sorted := sortDescBy (score_segment now) active_segments
  let cut := (pyTrunc ((active_segments.length : ℚ) * (6/10))).toNat
  let move_to_working := sorted.drop cut
  let mm := move_to_working.foldl (fun mm seg =>
      storeKnown (mm.delete MemoryTier.ACTIVE seg.id).1 MemoryTier.WORKING seg)
    cm.memory_manager
  { cm with memory_manager := mm }

/-- `ContextManager._maybe_optimize_memory`: sum the active contents'
character counts; when the sum exceeds `max_context_size`, run the
optimization pass. -/
def ContextManager.maybe_optimize_memory (cm : ContextManager) (now : ℚ) :
    ContextManager :=
  let active_segments := cm.memory_manager.get_all_segments MemoryTier.ACTIVE
  let current_size := (active_segments.map (fun s => s.content.length)).sum
  if cm.config.max_context_size < current_size then cm.optimize_active_memory now else cm

/-- `ContextManager.add_context`: wrap the content into a new segment
(relevance 1.0), store it into the active tier, synchronously run the size
check, then update the metrics. `segment_id` stands for the value of
`_generate_segment_id` (an md5 of content and current time). -/
def ContextManager.add_context (cm : ContextManager) (now : ℚ) (segment_id : String)
    (content : String) (metadata : List (String × String)) : ContextManager × String :=
  let segment : ContextSegment :=
    { id := segment_id, content := content, metadata := metadata, timestamp := now
      relevance_score := 1, access_count := 0, compression_ratio := 1 }
  let cm1 := { cm with memory_manager := storeKnown cm.memory_manager MemoryTier.ACTIVE segment }
  let cm2 := cm1.maybe_optimize_memory now
  let cm3 := { cm2 with metrics :=
    { cm2.metrics with
        total_segments := cm2.metrics.total_segments + 1
        active_segments := (cm2.memory_manager.get_all_segments MemoryTier.ACTIVE).length } }
  (cm3, segment_id)

/-- `ContextManager.retrieve_relevant`: collect the union of the three
tiers, delegate to the retrieval engine (whose score writes reach the
stored segments through aliasing), and fold the elapsed time into the
smoothed latency metric. `elapsed_ms` stands for the measured wall-clock
duration of the call. -/
def ContextManager.retrieve_relevant (cm : ContextManager) (query : String) (limit : ℕ)
    (elapsed_ms : ℚ) : ContextManager × List ContextSegment :=
  let all_segments :=
    cm.memory_manager.get_all_segments MemoryTier.ACTIVE
      ++ cm.memory_manager.get_all_segments MemoryTier.WORKING
      ++ cm.memory_manager.get_all_segments MemoryTier.LONG_TERM
  let result := BasicRetrievalEngine.retrieveRanked query all_segments limit
  let qw := queryWordSet query
  let mm : MemoryManager :=
    { active_memory := cm.memory_manager.active_memory.map
        (fun p => (p.1, updateSegScore qw p.2))
      working_memory := cm.memory_manager.working_memory.map
        (fun p => (p.1, updateSegScore qw p.2))
      long_term_memory := cm.memory_manager.long_term_memory.map
        (fun p => (p.1, updateSegScore qw p.2)) }
  let metrics := { cm.metrics with
    average_retrieval_time_ms :=
      cm.metrics.average_retrieval_time_ms * (9/10) + elapsed_ms * (1/10) }
  ({ cm with memory_manager := mm, metrics := metrics }, result)

/-- `ContextManager.remove_context`: scan the tiers in fixed order, delete
on the first hit, update the metrics and return `True`; `False` when no
tier contains the id. -/
def ContextManager.remove_context (cm : ContextManager) (segment_id : String) :
    ContextManager × Bool :=
  let upd := fun (mm : MemoryManager) =>
    { cm with
        memory_manager := mm
        metrics := { cm.metrics with
          total_segments := cm.metrics.total_segments - 1
          active_segments := (mm.get_all_segments MemoryTier.ACTIVE).length } }
  let d1 := cm.memory_manager.delete MemoryTier.ACTIVE segment_id
  if d1.2 then (upd d1.1, true)
  else
    let d2 := d1.1.delete MemoryTier.WORKING segment_id
    if d2.2 then (upd d2.1, true)
    else
      let d3 := d2.1.delete MemoryTier.LONG_TERM segment_id
      if d3.2 then (upd d3.1, true)
      else ({ cm with memory_manager := d3.1 }, false)

/-- The find loop at the top of `ContextManager.compress_context`: probe
the tiers in order `active, working, long_term` through
`MemoryManager.retrieve` (which increments `access_count` on the hit) and
stop at the first match. -/
def findSegment (mm : MemoryManager) (segment_id : String) :
    MemoryManager × Option (String × ContextSegment) :=
  match mm.retrieve MemoryTier.ACTIVE segment_id with
  | (mm1, some s) => (mm1, some (MemoryTier.ACTIVE, s))
  | (mm1, none) =>
    match mm1.retrieve MemoryTier.WORKING segment_id with
    | (mm2, some s) => (mm2, some (MemoryTier.WORKING, s))
    | (mm2, none) =>
      match mm2.retrieve MemoryTier.LONG_TERM segment_id with
      | (mm3, some s) => (mm3, some (MemoryTier.LONG_TERM, s))
      | (mm3, none) => (mm3, none)

/-- `ContextManager.compress_context`: locate the segment (first matching
tier), compress its content with the configured target ratio, overwrite
`content`, then set `compression_ratio` from the *already overwritten*
`segment.content` and the compressed text — exactly as the source does —
and store the segment back into the tier it was found in. -/
def ContextManager.compress_context (cm : ContextManager) (segment_id : String) :
    ContextManager × Bool :=
  match findSegment cm.memory_manager segment_id with
  | (mm', none) => ({ cm with memory_manager := mm' }, false)
  | (mm', some (tier, segment)) =>
      let compressed_content :=
        BasicCompressionEngine.compress segment.content cm.config.compression_target_ratio
      let seg1 := { segment with content := compressed_content }
      let seg2 := { seg1 with compression_ratio :=
        BasicCompressionEngine.get_compression_ratio seg1.content compressed_content }
      ({ cm with memory_manager := storeKnown mm' tier seg2 }, true)

/-- `ContextManager._cleanup_old_segments`: walk the long-term snapshot
and delete every segment older than 30 days whose access count is below 2
(`timedelta(days=30)` is 2592000 seconds). -/
def ContextManager.cleanup_old_segments (cm : ContextManager) (now : ℚ) :
    ContextManager :=
  let cutoff_time := now - 30 * 86400
  let long_term_segments := cm.memory_manager.get_all_segments MemoryTier.LONG_TERM
  let mm := long_term_segments.foldl (fun mm seg =>
      if seg.timestamp < cutoff_time ∧ seg.access_count < 2
      then (mm.delete MemoryTier.LONG_TERM seg.id).1
      else mm)
    cm.memory_manager
  { cm with memory_manager := mm }

/-! ### Basic facts about the embedded string primitives -/

theorem strLength_data (s : String) : s.length = s.data.length := rfl

theorem strMk_length (l : List Char) : (String.mk l).length = l.length := rfl

theorem strLength_append (s t : String) : (s ++ t).length = s.length + t.length := by
  cases s with
  | mk a =>
    cases t with
    | mk b =>
      show (a ++ b).length = a.length + b.length
      exact List.length_append a b

theorem pySliceTo_length_le (s : String) (k : ℤ) : (pySliceTo s k).length ≤ s.length := by
  unfold pySliceTo
  split <;> rw [strMk_length, List.length_take, strLength_data] <;> omega

theorem pySliceTo_length_le_toNat (s : String) (k : ℤ) (hk : 0 ≤ k) :
    (pySliceTo s k).length ≤ k.toNat := by
  unfold pySliceTo
  rw [if_pos hk, strMk_length, List.length_take]
  omega

theorem pySliceLast_length_le_toNat (s : String) (k : ℤ) :
    (pySliceLast s k).length ≤ k.toNat := by
  unfold pySliceLast
  rw [strMk_length, List.length_drop, strLength_data]
  omega

theorem pyTrunc_nonneg {q : ℚ} (h : 0 ≤ q) : 0 ≤ pyTrunc q := by
  unfold pyTrunc
  rw [if_pos h]
  exact Int.floor_nonneg.2 h

/-- When the remaining tail budget `target_length - keep_start` of the
compressor is positive, the target length itself is positive. -/
theorem keepEnd_nonpos_of_nonpos (t : ℤ) (ht : t ≤ 0) :
    t - pyTrunc ((t : ℚ) * (7/10)) ≤ 0 := by
  rcases lt_or_eq_of_le ht with hlt | h0
  · have hq : (t : ℚ) * (7/10) < 0 := by
      apply mul_neg_of_neg_of_pos
      · exact_mod_cast hlt
      · norm_num
    unfold pyTrunc
    rw [if_neg (not_le.2 hq)]
    have hfl : (⌊-((t : ℚ) * (7/10))⌋ : ℚ) ≤ -((t : ℚ) * (7/10)) := Int.floor_le _
    have hcast : ((t - -⌊-((t : ℚ) * (7/10))⌋ : ℤ) : ℚ) ≤ 0 := by
      push_cast
      nlinarith [hfl, (show (t : ℚ) < 0 by exact_mod_cast hlt)]
    exact_mod_cast hcast
  · subst h0
    simp [pyTrunc]

/-! ### Claim C2: compression length behavior -/

/-- C2 (counterexample): the claim "for every content `c` and ratio
`r < 1.0`, `len(compress(c, r)) ≤ len(c)`" is false at `c = "ab"`,
`r = 1/2`: the 17-character elision marker makes the output longer than
the input. -/
theorem C2_compress_expands_short_content :
    ((1 : ℚ)/2 < 1) ∧
      "ab".length < (BasicContextManager.BasicCompressionEngine.compress "ab" (1/2)).length := by
  constructor
  · norm_num
  · with_unfolding_all decide

/-- C2 (amended): for every content string and every target ratio `r < 1.0`,
`compress` returns a string of length at most `len(content) + 16` (the
17-character elision marker replaces at least one dropped character), and
when the computed target length is at least `len(content)` the content is
returned unchanged. -/
theorem C2_compress_length_bound (content : String) (target_ratio : ℚ)
    (_h : target_ratio < 1) :
    (BasicCompressionEngine.compress content target_ratio).length ≤ content.length + 16 ∧
    ((content.length : ℤ) ≤ pyTrunc ((content.length : ℚ) * target_ratio) →
      BasicCompressionEngine.compress content target_ratio = content) := by
  constructor
  · simp only [BasicCompressionEngine.compress]
    split
    · omega
    · rename_i hnt
      split
      · rename_i hke
        set t : ℤ := pyTrunc ((content.length : ℚ) * target_ratio) with ht
        set ks : ℤ := pyTrunc ((t : ℚ) * (7/10)) with hks
        have htpos : 0 < t := by
          by_contra hc
          push_neg at hc
          have := keepEnd_nonpos_of_nonpos t hc
          omega
        have hksnn : 0 ≤ ks := by
          rw [hks]
          apply pyTrunc_nonneg
          positivity
        have h1 := pySliceTo_length_le_toNat content ks hksnn
        have h2 := pySliceLast_length_le_toNat content (t - ks)
        have h3 : ("...[truncated]..." : String).length = 17 := rfl
        rw [strLength_append, strLength_append, h3]
        have htlt : t < (content.length : ℤ) := by omega
        omega
      · have h1 := pySliceTo_length_le content (pyTrunc
          (((pyTrunc ((content.length : ℚ) * target_ratio)) : ℚ) * (7/10)))
        have h3 : ("...[truncated]" : String).length = 14 := rfl
        rw [strLength_append, h3]
        omega
  · intro hle
    simp only [BasicCompressionEngine.compress]
    rw [if_pos hle]

/-- Witness for `C2_compress_length_bound` at `content = "ab"`,
`target_ratio = 1/2`. -/
theorem C2_compress_length_bound_witness :
    (BasicContextManager.BasicCompressionEngine.compress "ab" (1/2)).length ≤ "ab".length + 16 :=
  (C2_compress_length_bound "ab" (1/2) (by norm_num)).1

/-! ### Concrete scenario states -/

/-- A fresh manager (default configuration, constructed at time 0) holding
one ten-character segment `"0123456789"` with id `"seg-1"`. -/
def exCompress : ContextManager :=
  ((ContextManager.init {} 0).add_context 0 "seg-1" "0123456789" []).1

/-! ### Claim C1: the compression ratio written by `compress_context` -/

/-- C1 (code bug evaluation): compressing the ten-character segment with
the default target ratio 0.3 produces the 20-character string
`"01...[truncated]...9"`, so the ratio the claim (and the spec) demand is
`20/10 = 2`. But `compress_context` overwrites `segment.content` with the
compressed text *before* calling `get_compression_ratio(segment.content,
compressed_content)`, so the stored `compression_ratio` is
`len(compressed)/len(compressed) = 1`, not `len(compressed)/len(original)`. -/
theorem C1_compression_ratio_uses_overwritten_content :
    (exCompress.compress_context "seg-1").2 = true
  ∧ (tmGet (exCompress.compress_context "seg-1").1.memory_manager.active_memory "seg-1").map
      (fun s => (s.content, s.compression_ratio)) = some ("01...[truncated]...9", 1)
  ∧ ("01...[truncated]...9".length : ℚ) / ("0123456789".length : ℚ) ≠ 1 := by
  refine ⟨?_, ?_, ?_⟩
  · with_unfolding_all decide
  · with_unfolding_all decide
  · with_unfolding_all decide

/-! ### Claim C6: the size check triggers the optimization pass -/

/-- The manager of Scenario B: `max_context_size = 10`, two six-character
segments ingested at time 0. -/
def exBudget : ContextManager :=
  (((ContextManager.init { max_context_size := 10 } 0).add_context 0 "s1" "abcdef"
      []).1.add_context 0 "s2" "ghijkl" []).1

/-- C6: with `maxContextSize = 10`, after ingesting two segments of length
6 the aggregate active length 12 exceeds the budget, the optimization pass
runs synchronously inside the second `add_context`, and exactly
`int(2 * 0.6) = 1` segment is left in the active tier with the other moved
to working. -/
theorem C6_second_ingestion_triggers_optimization :
    tmKeys exBudget.memory_manager.active_memory = ["s1"]
  ∧ tmKeys exBudget.memory_manager.working_memory = ["s2"]
  ∧ tmKeys exBudget.memory_manager.long_term_memory = [] := by
  refine ⟨?_, ?_, ?_⟩
  · with_unfolding_all decide
  · with_unfolding_all decide
  · with_unfolding_all decide

/-! ### Claim C3: `_optimize_active_memory` is not idempotent -/

/-- A manager holding two active one-character segments (budget untouched:
the default `max_context_size` is 32000). -/
def exTwoActive : ContextManager :=
  (((ContextManager.init {} 0).add_context 0 "a" "x" []).1.add_context 0 "b" "y" []).1

/-- C3 (counterexample): starting from two active segments, the first
`_optimize_active_memory` call keeps `int(2*0.6) = 1` segment active and
demotes one; the second call keeps `int(1*0.6) = 0` and demotes the
remaining one, so the tier membership after the second call differs from
the membership after the first: the pass is not idempotent. -/
theorem C3_second_pass_changes_membership :
    tmKeys (exTwoActive.optimize_active_memory 0).memory_manager.active_memory = ["a"]
  ∧ tmKeys (exTwoActive.optimize_active_memory 0).memory_manager.working_memory = ["b"]
  ∧ tmKeys ((exTwoActive.optimize_active_memory 0).optimize_active_memory
      0).memory_manager.active_memory = []
  ∧ tmKeys ((exTwoActive.optimize_active_memory 0).optimize_active_memory
      0).memory_manager.working_memory = ["b", "a"] := by
  refine ⟨?_, ?_, ?_, ?_⟩
  · with_unfolding_all decide
  · with_unfolding_all decide
  · with_unfolding_all decide
  · with_unfolding_all decide

/-! ### Tier-dictionary lemmas -/

theorem tmKeys_cons (k : String) (s : ContextSegment) (rest : TierMap) :
    tmKeys ((k, s) :: rest) = k :: tmKeys rest := rfl

theorem tmGet_cons_ne {k : String} {s : ContextSegment} {rest : TierMap} {sid : String}
    (h : ¬ k = sid) : tmGet ((k, s) :: rest) sid = tmGet rest sid := by
  unfold tmGet
  rw [List.find?_cons_of_neg _ (by simp [h])]

theorem tmGet_cons_self {s : ContextSegment} {rest : TierMap} {sid : String} :
    tmGet ((sid, s) :: rest) sid = some s := by
  unfold tmGet
  rw [List.find?_cons_of_pos _ (by simp)]
  rfl

theorem tmGet_eq_none_of_not_mem {m : TierMap} {sid : String} (h : sid ∉ tmKeys m) :
    tmGet m sid = none := by
  induction m with
  | nil => rfl
  | cons p rest ih =>
    obtain ⟨k, s⟩ := p
    rw [tmKeys_cons, List.mem_cons, not_or] at h
    rw [tmGet_cons_ne (fun hk => h.1 hk.symm)]
    exact ih h.2

theorem mem_of_tmGet_eq_some {m : TierMap} {sid : String} {s : ContextSegment}
    (h : tmGet m sid = some s) : sid ∈ tmKeys m := by
  by_contra hmem
  rw [tmGet_eq_none_of_not_mem hmem] at h
  exact Option.noConfusion h

theorem tmGet_replace {m : TierMap} {sid : String} (s : ContextSegment)
    (h : sid ∈ tmKeys m) :
    tmGet (m.map (fun p => if p.1 = sid then (sid, s) else p)) sid = some s := by
  induction m with
  | nil => simp [tmKeys] at h
  | cons p rest ih =>
    obtain ⟨k, v⟩ := p
    by_cases hk : k = sid
    · subst hk
      simp only [List.map_cons, if_pos rfl]
      exact tmGet_cons_self
    · rw [tmKeys_cons, List.mem_cons] at h
      rcases h with h | h
      · exact absurd h.symm hk
      · simp only [List.map_cons, if_neg hk]
        rw [tmGet_cons_ne hk]
        exact ih h

theorem tmGet_append_single (m : TierMap) (sid : String) (s : ContextSegment)
    (h : sid ∉ tmKeys m) : tmGet (m ++ [(sid, s)]) sid = some s := by
  induction m with
  | nil => exact tmGet_cons_self
  | cons p rest ih =>
    obtain ⟨k, v⟩ := p
    rw [tmKeys_cons, List.mem_cons, not_or] at h
    rw [List.cons_append, tmGet_cons_ne (fun hk => h.1 hk.symm)]
    exact ih h.2

theorem tmGet_tmInsert_self (m : TierMap) (sid : String) (s : ContextSegment) :
    tmGet (tmInsert m sid s) sid = some s := by
  unfold tmInsert
  split
  · exact tmGet_replace s (by assumption)
  · exact tmGet_append_single m sid s (by assumption)

theorem tmKeys_tmInsert_of_mem {m : TierMap} {sid : String} (s : ContextSegment)
    (h : sid ∈ tmKeys m) : tmKeys (tmInsert m sid s) = tmKeys m := by
  unfold tmInsert
  rw [if_pos h]
  unfold tmKeys
  rw [List.map_map]
  apply List.map_congr_left
  intro p _
  by_cases hk : p.1 = sid
  · simp [hk]
  · simp [hk]

theorem tmKeys_tmInsert_of_not_mem {m : TierMap} {sid : String} (s : ContextSegment)
    (h : sid ∉ tmKeys m) : tmKeys (tmInsert m sid s) = tmKeys m ++ [sid] := by
  unfold tmInsert
  rw [if_neg h]
  simp [tmKeys]

theorem mem_tmKeys_tmInsert {x : String} {m : TierMap} {sid : String}
    {s : ContextSegment} : x ∈ tmKeys (tmInsert m sid s) ↔ x ∈ tmKeys m ∨ x = sid := by
  by_cases hm : sid ∈ tmKeys m
  · rw [tmKeys_tmInsert_of_mem s hm]
    constructor
    · exact Or.inl
    · rintro (h | rfl)
      · exact h
      · exact hm
  · rw [tmKeys_tmInsert_of_not_mem s hm]
    simp

theorem nodup_tmKeys_tmInsert {m : TierMap} {sid : String} (s : ContextSegment)
    (h : (tmKeys m).Nodup) : (tmKeys (tmInsert m sid s)).Nodup := by
  by_cases hm : sid ∈ tmKeys m
  · rw [tmKeys_tmInsert_of_mem s hm]
    exact h
  · rw [tmKeys_tmInsert_of_not_mem s hm]
    simp [List.nodup_append, h, hm]

theorem tmKeys_tmErase (m : TierMap) (sid : String) :
    tmKeys (tmErase m sid) = (tmKeys m).filter (fun k => decide (k ≠ sid)) := by
  unfold tmErase tmKeys
  induction m with
  | nil => rfl
  | cons p rest ih =>
    rw [List.filter_cons, List.map_cons, List.filter_cons]
    by_cases hk : p.1 = sid
    · rw [if_neg (by simp [hk]), if_neg (by simp [hk])]
      exact ih
    · rw [if_pos (by simp [hk]), if_pos (by simp [hk]), List.map_cons, ih]

theorem mem_tmKeys_tmErase {x : String} {m : TierMap} {sid : String} :
    x ∈ tmKeys (tmErase m sid) ↔ x ∈ tmKeys m ∧ x ≠ sid := by
  rw [tmKeys_tmErase]
  simp [List.mem_filter]

theorem nodup_tmKeys_tmErase {m : TierMap} (sid : String)
    (h : (tmKeys m).Nodup) : (tmKeys (tmErase m sid)).Nodup := by
  rw [tmKeys_tmErase]
  exact h.filter _

theorem tmErase_cons_ne {k : String} {s : ContextSegment} {rest : TierMap} {sid : String}
    (h : ¬ k = sid) : tmErase ((k, s) :: rest) sid = (k, s) :: tmErase rest sid := by
  simp only [tmErase, List.filter_cons]
  simp [h]

theorem tmErase_cons_self {s : ContextSegment} {rest : TierMap} {sid : String} :
    tmErase ((sid, s) :: rest) sid = tmErase rest sid := by
  simp [tmErase, List.filter_cons]

theorem tmErase_eq_self_of_not_mem {m : TierMap} {sid : String} (h : sid ∉ tmKeys m) :
    tmErase m sid = m := by
  induction m with
  | nil => rfl
  | cons p rest ih =>
    obtain ⟨k, v⟩ := p
    rw [tmKeys_cons, List.mem_cons, not_or] at h
    rw [tmErase_cons_ne (fun hk => h.1 hk.symm), ih h.2]

/-- Every pair of a tier dictionary is keyed by its segment's own id: true
of every dictionary the program builds, since `store` always uses
`segment.id` as the key. -/
def WellKeyed (m : TierMap) : Prop := ∀ p ∈ m, p.1 = p.2.id

theorem wellKeyed_nil : WellKeyed [] := by
  intro p hp
  exact absurd hp (List.not_mem_nil p)

theorem wellKeyed_tmInsert {m : TierMap} {sid : String} {s : ContextSegment}
    (h : WellKeyed m) (hs : s.id = sid) : WellKeyed (tmInsert m sid s) := by
  unfold tmInsert
  split
  · intro p hp
    obtain ⟨q, hq, hmap⟩ := List.mem_map.1 hp
    by_cases hk : q.1 = sid
    · rw [if_pos hk] at hmap
      rw [← hmap, hs]
    · rw [if_neg hk] at hmap
      rw [← hmap]
      exact h q hq
  · intro p hp
    rcases List.mem_append.1 hp with hp | hp
    · exact h p hp
    · rw [List.mem_singleton.1 hp, hs]

theorem wellKeyed_tmErase {m : TierMap} {sid : String} (h : WellKeyed m) :
    WellKeyed (tmErase m sid) := by
  intro p hp
  exact h p (List.mem_of_mem_filter hp)

theorem mem_tmKeys_of_mem_tmValues {m : TierMap} (hwk : WellKeyed m)
    {s : ContextSegment} (hs : s ∈ tmValues m) : s.id ∈ tmKeys m := by
  obtain ⟨p, hp, hps⟩ := List.mem_map.1 hs
  have := hwk p hp
  exact List.mem_map.2 ⟨p, hp, by rw [this, hps]⟩

/-! ### Characterizations of the `MemoryManager` operations at the three
tier constants -/

/-- The in-place `segment.access_count += 1` performed by
`MemoryManager.retrieve` on a hit. -/
def incAccess (s : ContextSegment) : ContextSegment :=
  { s with access_count := s.access_count + 1 }

theorem get_all_active (mm : MemoryManager) :
    mm.get_all_segments MemoryTier.ACTIVE = tmValues mm.active_memory := rfl

theorem get_all_working (mm : MemoryManager) :
    mm.get_all_segments MemoryTier.WORKING = tmValues mm.working_memory := by
  unfold MemoryManager.get_all_segments
  rw [if_neg (by decide), if_pos rfl]

theorem get_all_long_term (mm : MemoryManager) :
    mm.get_all_segments MemoryTier.LONG_TERM = tmValues mm.long_term_memory := by
  unfold MemoryManager.get_all_segments
  rw [if_neg (by decide), if_neg (by decide), if_pos rfl]

theorem storeKnown_active (mm : MemoryManager) (seg : ContextSegment) :
    storeKnown mm MemoryTier.ACTIVE seg
      = { mm with active_memory := tmInsert mm.active_memory seg.id seg } := by
  unfold storeKnown MemoryManager.store
  rw [if_pos rfl]

theorem storeKnown_working (mm : MemoryManager) (seg : ContextSegment) :
    storeKnown mm MemoryTier.WORKING seg
      = { mm with working_memory := tmInsert mm.working_memory seg.id seg } := by
  unfold storeKnown MemoryManager.store
  rw [if_neg (by decide), if_pos rfl]

theorem storeKnown_long_term (mm : MemoryManager) (seg : ContextSegment) :
    storeKnown mm MemoryTier.LONG_TERM seg
      = { mm with long_term_memory := tmInsert mm.long_term_memory seg.id seg } := by
  unfold storeKnown MemoryManager.store
  rw [if_neg (by decide), if_neg (by decide), if_pos rfl]

theorem delete_active (mm : MemoryManager) (sid : String) :
    mm.delete MemoryTier.ACTIVE sid
      = ({ mm with active_memory := tmErase mm.active_memory sid },
          decide (sid ∈ tmKeys mm.active_memory)) := by
  unfold MemoryManager.delete
  rw [if_pos rfl]

theorem delete_working (mm : MemoryManager) (sid : String) :
    mm.delete MemoryTier.WORKING sid
      = ({ mm with working_memory := tmErase mm.working_memory sid },
          decide (sid ∈ tmKeys mm.working_memory)) := by
  unfold MemoryManager.delete
  rw [if_neg (by decide), if_pos rfl]

theorem delete_long_term (mm : MemoryManager) (sid : String) :
    mm.delete MemoryTier.LONG_TERM sid
      = ({ mm with long_term_memory := tmErase mm.long_term_memory sid },
          decide (sid ∈ tmKeys mm.long_term_memory)) := by
  unfold MemoryManager.delete
  rw [if_neg (by decide), if_neg (by decide), if_pos rfl]

theorem retrieve_active_miss (mm : MemoryManager) (sid : String)
    (h : tmGet mm.active_memory sid = none) :
    mm.retrieve MemoryTier.ACTIVE sid = (mm, none) := by
  unfold MemoryManager.retrieve
  rw [if_pos rfl, h]

theorem retrieve_working_miss (mm : MemoryManager) (sid : String)
    (h : tmGet mm.working_memory sid = none) :
    mm.retrieve MemoryTier.WORKING sid = (mm, none) := by
  unfold MemoryManager.retrieve
  rw [if_neg (by decide), if_pos rfl, h]

theorem retrieve_long_term_miss (mm : MemoryManager) (sid : String)
    (h : tmGet mm.long_term_memory sid = none) :
    mm.retrieve MemoryTier.LONG_TERM sid = (mm, none) := by
  unfold MemoryManager.retrieve
  rw [if_neg (by decide), if_neg (by decide), if_pos rfl, h]

theorem retrieve_active_hit (mm : MemoryManager) (sid : String) (s : ContextSegment)
    (h : tmGet mm.active_memory sid = some s) :
    mm.retrieve MemoryTier.ACTIVE sid
      = ({ mm with active_memory := tmInsert mm.active_memory sid (incAccess s) },
          some (incAccess s)) := by
  unfold MemoryManager.retrieve
  rw [if_pos rfl, h]
  rfl

theorem retrieve_working_hit (mm : MemoryManager) (sid : String) (s : ContextSegment)
    (h : tmGet mm.working_memory sid = some s) :
    mm.retrieve MemoryTier.WORKING sid
      = ({ mm with working_memory := tmInsert mm.working_memory sid (incAccess s) },
          some (incAccess s)) := by
  unfold MemoryManager.retrieve
  rw [if_neg (by decide), if_pos rfl, h]
  show (if (MemoryTier.WORKING = MemoryTier.ACTIVE) then _ else _, _) = _
  rw [if_neg (by decide)]
  rw [if_pos rfl]
  rfl

theorem retrieve_long_term_hit (mm : MemoryManager) (sid : String) (s : ContextSegment)
    (h : tmGet mm.long_term_memory sid = some s) :
    mm.retrieve MemoryTier.LONG_TERM sid
      = ({ mm with long_term_memory := tmInsert mm.long_term_memory sid (incAccess s) },
          some (incAccess s)) := by
  unfold MemoryManager.retrieve
  rw [if_neg (by decide), if_neg (by decide), if_pos rfl, h]
  show (if (MemoryTier.LONG_TERM = MemoryTier.ACTIVE) then _ else _, _) = _
  rw [if_neg (by decide), if_neg (by decide)]
  rfl

theorem findSegment_none (mm : MemoryManager) (sid : String)
    (hA : tmGet mm.active_memory sid = none)
    (hW : tmGet mm.working_memory sid = none)
    (hL : tmGet mm.long_term_memory sid = none) :
    findSegment mm sid = (mm, none) := by
  unfold findSegment
  simp only [retrieve_active_miss mm sid hA, retrieve_working_miss mm sid hW,
    retrieve_long_term_miss mm sid hL]

theorem findSegment_active (mm : MemoryManager) (sid : String) (s : ContextSegment)
    (hA : tmGet mm.active_memory sid = some s) :
    findSegment mm sid
      = ({ mm with active_memory := tmInsert mm.active_memory sid (incAccess s) },
          some (MemoryTier.ACTIVE, incAccess s)) := by
  unfold findSegment
  simp only [retrieve_active_hit mm sid s hA]

theorem findSegment_working (mm : MemoryManager) (sid : String) (s : ContextSegment)
    (hA : tmGet mm.active_memory sid = none)
    (hW : tmGet mm.working_memory sid = some s) :
    findSegment mm sid
      = ({ mm with working_memory := tmInsert mm.working_memory sid (incAccess s) },
          some (MemoryTier.WORKING, incAccess s)) := by
  unfold findSegment
  simp only [retrieve_active_miss mm sid hA, retrieve_working_hit mm sid s hW]

theorem findSegment_long_term (mm : MemoryManager) (sid : String) (s : ContextSegment)
    (hA : tmGet mm.active_memory sid = none)
    (hW : tmGet mm.working_memory sid = none)
    (hL : tmGet mm.long_term_memory sid = some s) :
    findSegment mm sid
      = ({ mm with long_term_memory := tmInsert mm.long_term_memory sid (incAccess s) },
          some (MemoryTier.LONG_TERM, incAccess s)) := by
  unfold findSegment
  simp only [retrieve_active_miss mm sid hA, retrieve_working_miss mm sid hW,
    retrieve_long_term_hit mm sid s hL]

/-! ### Claim C10: only `store` rejects an unrecognized tier -/

/-- C10: for every unrecognized tier name, `store` raises
`ValueError("Unknown memory tier: ...")` while the read-by-id path returns
`None`, `delete` returns `False` and `get_all_segments` returns `[]`, none
of them raising and none of them changing any tier (the manager state is
returned unchanged). -/
theorem C10_unknown_tier_behavior (mm : MemoryManager) (tier : String)
    (segment_id : String) (seg : ContextSegment)
    (h1 : tier ≠ MemoryTier.ACTIVE) (h2 : tier ≠ MemoryTier.WORKING)
    (h3 : tier ≠ MemoryTier.LONG_TERM) :
    mm.store tier seg = .error ("Unknown memory tier: " ++ tier)
  ∧ mm.retrieve tier segment_id = (mm, none)
  ∧ mm.delete tier segment_id = (mm, false)
  ∧ mm.get_all_segments tier = [] := by
  refine ⟨?_, ?_, ?_, ?_⟩
  · unfold MemoryManager.store
    rw [if_neg h1, if_neg h2, if_neg h3]
  · unfold MemoryManager.retrieve
    rw [if_neg h1, if_neg h2, if_neg h3]
  · unfold MemoryManager.delete
    rw [if_neg h1, if_neg h2, if_neg h3]
  · unfold MemoryManager.get_all_segments
    rw [if_neg h1, if_neg h2, if_neg h3]

/-- A throwaway concrete segment for witnesses. -/
def exSegment : ContextSegment :=
  { id := "s", content := "hello", metadata := [], timestamp := 0,
    relevance_score := 1, access_count := 0, compression_ratio := 1 }

/-- Witness for `C10_unknown_tier_behavior` at the tier name `"tier-x"`. -/
theorem C10_unknown_tier_behavior_witness :
    (ContextManager.init {} 0).memory_manager.store "tier-x" exSegment
        = .error ("Unknown memory tier: " ++ "tier-x")
  ∧ (ContextManager.init {} 0).memory_manager.delete "tier-x" "s"
        = ((ContextManager.init {} 0).memory_manager, false) := by
  have h := C10_unknown_tier_behavior (ContextManager.init {} 0).memory_manager
    "tier-x" "s" exSegment (by decide) (by decide) (by decide)
  exact ⟨h.1, h.2.2.1⟩

/-! ### Claim C8: compressing a nonexistent id is a no-op returning false -/

/-- C8: for every id not present in any tier, `compress_context` returns
`False` without raising, and the whole manager state — all three tier
dictionaries, every segment's fields, metrics — is exactly what it was
before the call. -/
theorem C8_compress_missing_id_noop (cm : ContextManager) (segment_id : String)
    (hA : segment_id ∉ tmKeys cm.memory_manager.active_memory)
    (hW : segment_id ∉ tmKeys cm.memory_manager.working_memory)
    (hL : segment_id ∉ tmKeys cm.memory_manager.long_term_memory) :
    cm.compress_context segment_id = (cm, false) := by
  unfold ContextManager.compress_context
  rw [findSegment_none cm.memory_manager segment_id
    (tmGet_eq_none_of_not_mem hA) (tmGet_eq_none_of_not_mem hW)
    (tmGet_eq_none_of_not_mem hL)]

/-- Witness for `C8_compress_missing_id_noop` on a fresh manager and the
id `"ghost"`. -/
theorem C8_compress_missing_id_noop_witness :
    (ContextManager.init {} 0).compress_context "ghost" = (ContextManager.init {} 0, false) :=
  C8_compress_missing_id_noop (ContextManager.init {} 0) "ghost"
    (by decide) (by decide) (by decide)

/-! ### Claim C9: a successful compression counts as one access -/

/-- The pure tier-order lookup mirroring the find loop of
`compress_context`: the first tier (in order `active`, `working`,
`long_term`) containing the id, with the stored segment. -/
def lookupFirst (mm : MemoryManager) (segment_id : String) :
    Option (String × ContextSegment) :=
  match tmGet mm.active_memory segment_id with
  | some s => some (MemoryTier.ACTIVE, s)
  | none =>
    match tmGet mm.working_memory segment_id with
    | some s => some (MemoryTier.WORKING, s)
    | none =>
      match tmGet mm.long_term_memory segment_id with
      | some s => some (MemoryTier.LONG_TERM, s)
      | none => none

/-- The segment value `compress_context` stores back: content compressed,
then `compression_ratio` recomputed from the already-overwritten content. -/
def compressedSeg (cm : ContextManager) (segment : ContextSegment) : ContextSegment :=
  let compressed_content :=
    BasicCompressionEngine.compress segment.content cm.config.compression_target_ratio
  let seg1 := { segment with content := compressed_content }
  { seg1 with compression_ratio :=
      BasicCompressionEngine.get_compression_ratio seg1.content compressed_content }

theorem compressedSeg_id (cm : ContextManager) (s : ContextSegment) :
    (compressedSeg cm s).id = s.id := rfl

theorem incAccess_id (s : ContextSegment) : (incAccess s).id = s.id := rfl

theorem compressedSeg_access_count (cm : ContextManager) (s : ContextSegment) :
    (compressedSeg cm s).access_count = s.access_count := rfl

/-- Reduction of `compress_context` once the find loop's result is known. -/
theorem compress_context_eq_of_findSegment (cm : ContextManager) (sid : String)
    (mm' : MemoryManager) (tier : String) (s : ContextSegment)
    (h : findSegment cm.memory_manager sid = (mm', some (tier, s))) :
    cm.compress_context sid
      = ({ cm with memory_manager := storeKnown mm' tier (compressedSeg cm s) }, true) := by
  unfold ContextManager.compress_context
  rw [h]
  rfl

/-- C9: whenever `compress_context` finds the segment (in whichever tier
the ordered scan hits first), it returns `True` and the stored segment's
`access_count` has grown by exactly one, because the controller locates
the segment through `MemoryManager.retrieve`, whose hit path performs the
increment. The `hkey` hypothesis records that the dictionary keys the
segment under its own id, which is true of every state the program builds
(`store` always keys by `segment.id`). -/
theorem C9_compress_increments_access_count (cm : ContextManager)
    (segment_id tier : String) (seg : ContextSegment)
    (h : lookupFirst cm.memory_manager segment_id = some (tier, seg))
    (hkey : seg.id = segment_id) :
    (cm.compress_context segment_id).2 = true
  ∧ ∃ seg', lookupFirst (cm.compress_context segment_id).1.memory_manager segment_id
        = some (tier, seg')
      ∧ seg'.access_count = seg.access_count + 1 := by
  unfold lookupFirst at h
  cases hA : tmGet cm.memory_manager.active_memory segment_id with
  | some sA =>
    rw [hA] at h
    have h' := Option.some.inj h
    have htier : tier = MemoryTier.ACTIVE := (congrArg Prod.fst h').symm
    have hseg : sA = seg := congrArg Prod.snd h'
    subst htier
    rw [hseg] at hA
    rw [compress_context_eq_of_findSegment cm segment_id _ _ _
      (findSegment_active cm.memory_manager segment_id seg hA)]
    refine ⟨rfl, compressedSeg cm (incAccess seg), ?_, rfl⟩
    show lookupFirst _ segment_id = _
    rw [storeKnown_active]
    rw [compressedSeg_id, incAccess_id, hkey]
    unfold lookupFirst
    rw [tmGet_tmInsert_self]
  | none =>
    rw [hA] at h
    cases hW : tmGet cm.memory_manager.working_memory segment_id with
    | some sW =>
      rw [hW] at h
      have h' := Option.some.inj h
      have htier : tier = MemoryTier.WORKING := (congrArg Prod.fst h').symm
      have hseg : sW = seg := congrArg Prod.snd h'
      subst htier
      rw [hseg] at hW
      rw [compress_context_eq_of_findSegment cm segment_id _ _ _
        (findSegment_working cm.memory_manager segment_id seg hA hW)]
      refine ⟨rfl, compressedSeg cm (incAccess seg), ?_, rfl⟩
      show lookupFirst _ segment_id = _
      rw [storeKnown_working]
      rw [compressedSeg_id, incAccess_id, hkey]
      unfold lookupFirst
      rw [hA, tmGet_tmInsert_self]
    | none =>
      rw [hW] at h
      cases hL : tmGet cm.memory_manager.long_term_memory segment_id with
      | some sL =>
        rw [hL] at h
        have h' := Option.some.inj h
        have htier : tier = MemoryTier.LONG_TERM := (congrArg Prod.fst h').symm
        have hseg : sL = seg := congrArg Prod.snd h'
        subst htier
        rw [hseg] at hL
        rw [compress_context_eq_of_findSegment cm segment_id _ _ _
          (findSegment_long_term cm.memory_manager segment_id seg hA hW hL)]
        refine ⟨rfl, compressedSeg cm (incAccess seg), ?_, rfl⟩
        show lookupFirst _ segment_id = _
        rw [storeKnown_long_term]
        rw [compressedSeg_id, incAccess_id, hkey]
        unfold lookupFirst
        rw [hA, hW, tmGet_tmInsert_self]
      | none =>
        rw [hL] at h
        exact Option.noConfusion h

/-- Witness for `C9_compress_increments_access_count`: on the concrete
single-segment manager, compressing `"seg-1"` bumps the access count from
0 to 1. -/
theorem C9_compress_increments_access_count_witness :
    (exCompress.compress_context "seg-1").2 = true
  ∧ ∃ seg', lookupFirst (exCompress.compress_context "seg-1").1.memory_manager "seg-1"
        = some (MemoryTier.ACTIVE, seg')
      ∧ seg'.access_count = 0 + 1 := by
  have hlk : lookupFirst exCompress.memory_manager "seg-1"
      = some (MemoryTier.ACTIVE,
          { id := "seg-1", content := "0123456789", metadata := [], timestamp := 0,
            relevance_score := 1, access_count := 0, compression_ratio := 1 }) := by
    with_unfolding_all decide
  exact C9_compress_increments_access_count exCompress "seg-1" MemoryTier.ACTIVE _ hlk rfl

/-! ### Claim C7: `_cleanup_old_segments` scans only the long-term tier -/

theorem cleanupFold_active (cutoff : ℚ) (l : List ContextSegment) (mm : MemoryManager) :
    (l.foldl (fun mm seg =>
        if seg.timestamp < cutoff ∧ seg.access_count < 2
        then (mm.delete MemoryTier.LONG_TERM seg.id).1 else mm) mm).active_memory
      = mm.active_memory := by
  induction l generalizing mm with
  | nil => rfl
  | cons a t ih =>
    rw [List.foldl_cons, ih]
    by_cases hc : a.timestamp < cutoff ∧ a.access_count < 2
    · rw [if_pos hc, delete_long_term]
    · rw [if_neg hc]

theorem cleanupFold_working (cutoff : ℚ) (l : List ContextSegment) (mm : MemoryManager) :
    (l.foldl (fun mm seg =>
        if seg.timestamp < cutoff ∧ seg.access_count < 2
        then (mm.delete MemoryTier.LONG_TERM seg.id).1 else mm) mm).working_memory
      = mm.working_memory := by
  induction l generalizing mm with
  | nil => rfl
  | cons a t ih =>
    rw [List.foldl_cons, ih]
    by_cases hc : a.timestamp < cutoff ∧ a.access_count < 2
    · rw [if_pos hc, delete_long_term]
    · rw [if_neg hc]

theorem cleanupFold_long_term (cutoff : ℚ) (l : List ContextSegment) (mm : MemoryManager) :
    (l.foldl (fun mm seg =>
        if seg.timestamp < cutoff ∧ seg.access_count < 2
        then (mm.delete MemoryTier.LONG_TERM seg.id).1 else mm) mm).long_term_memory
      = l.foldl (fun t seg =>
          if seg.timestamp < cutoff ∧ seg.access_count < 2
          then tmErase t seg.id else t) mm.long_term_memory := by
  induction l generalizing mm with
  | nil => rfl
  | cons a t ih =>
    rw [List.foldl_cons, List.foldl_cons, ih]
    by_cases hc : a.timestamp < cutoff ∧ a.access_count < 2
    · rw [if_pos hc, if_pos hc, delete_long_term]
    · rw [if_neg hc, if_neg hc]

theorem eraseFold_cons_ne (cutoff : ℚ) (l : List ContextSegment) (k : String)
    (s : ContextSegment) (m : TierMap) (hk : ∀ seg ∈ l, seg.id ≠ k) :
    l.foldl (fun t seg => if seg.timestamp < cutoff ∧ seg.access_count < 2
        then tmErase t seg.id else t) ((k, s) :: m)
      = (k, s) :: l.foldl (fun t seg => if seg.timestamp < cutoff ∧ seg.access_count < 2
          then tmErase t seg.id else t) m := by
  induction l generalizing m with
  | nil => rfl
  | cons a t ih =>
    rw [List.foldl_cons, List.foldl_cons]
    have ha : a.id ≠ k := hk a (List.mem_cons_self a t)
    by_cases hc : a.timestamp < cutoff ∧ a.access_count < 2
    · rw [if_pos hc, if_pos hc, tmErase_cons_ne (fun he => ha he.symm)]
      exact ih _ (fun seg hs => hk seg (List.mem_cons_of_mem a hs))
    · rw [if_neg hc, if_neg hc]
      exact ih _ (fun seg hs => hk seg (List.mem_cons_of_mem a hs))

theorem eraseFold_eq_filter (cutoff : ℚ) (m : TierMap)
    (hnd : (tmKeys m).Nodup) (hwk : WellKeyed m) :
    (tmValues m).foldl (fun t seg => if seg.timestamp < cutoff ∧ seg.access_count < 2
        then tmErase t seg.id else t) m
      = m.filter (fun p => decide ¬(p.2.timestamp < cutoff ∧ p.2.access_count < 2)) := by
  induction m with
  | nil => rfl
  | cons p rest ih =>
    obtain ⟨k, s⟩ := p
    have hk : k = s.id := hwk (k, s) (List.mem_cons_self _ _)
    subst hk
    rw [tmKeys_cons] at hnd
    have hknotin : s.id ∉ tmKeys rest := (List.nodup_cons.1 hnd).1
    have hndr : (tmKeys rest).Nodup := (List.nodup_cons.1 hnd).2
    have hwkr : WellKeyed rest := fun q hq => hwk q (List.mem_cons_of_mem _ hq)
    have hids : ∀ seg ∈ tmValues rest, seg.id ≠ s.id := by
      intro seg hs he
      exact hknotin (he ▸ mem_tmKeys_of_mem_tmValues hwkr hs)
    rw [show tmValues ((s.id, s) :: rest) = s :: tmValues rest from rfl, List.foldl_cons,
      List.filter_cons]
    by_cases hc : s.timestamp < cutoff ∧ s.access_count < 2
    · rw [if_pos hc, tmErase_cons_self, tmErase_eq_self_of_not_mem hknotin,
        if_neg (by simp [hc]), ih hndr hwkr]
    · rw [if_neg hc, eraseFold_cons_ne cutoff _ _ _ _ hids, ih hndr hwkr,
        if_pos (by simp [hc])]

/-- C7: `_cleanup_old_segments` leaves the active and working tiers
untouched and removes from `long_term` exactly the segments that are both
older than 30 days (`timestamp < now - 30 days`) and accessed fewer than 2
times; in particular every long-term segment with `access_count ≥ 2`
survives regardless of age. The two hypotheses state that the long-term
dictionary is a real dictionary (no duplicate keys, each segment keyed by
its own id), true of every state the program builds. -/
theorem C7_cleanup_only_old_rarely_accessed_long_term (cm : ContextManager) (now : ℚ)
    (hnd : (tmKeys cm.memory_manager.long_term_memory).Nodup)
    (hwk : WellKeyed cm.memory_manager.long_term_memory) :
    (cm.cleanup_old_segments now).memory_manager.active_memory
        = cm.memory_manager.active_memory
  ∧ (cm.cleanup_old_segments now).memory_manager.working_memory
        = cm.memory_manager.working_memory
  ∧ (cm.cleanup_old_segments now).memory_manager.long_term_memory
        = cm.memory_manager.long_term_memory.filter
            (fun p => decide ¬(p.2.timestamp < now - 30 * 86400 ∧ p.2.access_count < 2))
  ∧ ∀ p ∈ cm.memory_manager.long_term_memory, 2 ≤ p.2.access_count →
      p ∈ (cm.cleanup_old_segments now).memory_manager.long_term_memory := by
  have hact : (cm.cleanup_old_segments now).memory_manager.active_memory
      = cm.memory_manager.active_memory := by
    unfold ContextManager.cleanup_old_segments
    rw [get_all_long_term]
    exact cleanupFold_active _ _ _
  have hwor : (cm.cleanup_old_segments now).memory_manager.working_memory
      = cm.memory_manager.working_memory := by
    unfold ContextManager.cleanup_old_segments
    rw [get_all_long_term]
    exact cleanupFold_working _ _ _
  have hlt : (cm.cleanup_old_segments now).memory_manager.long_term_memory
      = cm.memory_manager.long_term_memory.filter
          (fun p => decide ¬(p.2.timestamp < now - 30 * 86400 ∧ p.2.access_count < 2)) := by
    unfold ContextManager.cleanup_old_segments
    rw [get_all_long_term]
    rw [cleanupFold_long_term]
    exact eraseFold_eq_filter _ _ hnd hwk
  refine ⟨hact, hwor, hlt, ?_⟩
  intro p hp hcount
  rw [hlt]
  refine List.mem_filter.2 ⟨hp, ?_⟩
  simp only [decide_eq_true_eq, not_and, not_lt]
  intro _
  exact hcount

/-- Scenario C's stale segment: created at time 0, accessed once. -/
def exOldSeg : ContextSegment :=
  { id := "old", content := "a", metadata := [], timestamp := 0,
    relevance_score := 1, access_count := 1, compression_ratio := 1 }

/-- Scenario C's frequently-touched segment: created at time 0, accessed twice. -/
def exHotSeg : ContextSegment :=
  { id := "hot", content := "b", metadata := [], timestamp := 0,
    relevance_score := 1, access_count := 2, compression_ratio := 1 }

/-- A manager whose long-term tier holds Scenario C's two segments. -/
def exLongTermCM : ContextManager :=
  { config := {}
    memory_manager :=
      { active_memory := [], working_memory := []
        long_term_memory := [("old", exOldSeg), ("hot", exHotSeg)] }
    metrics :=
      { total_segments := 2, active_segments := 0, total_size_bytes := 0
        compression_ratio := 1, cache_hit_rate := 0
        average_retrieval_time_ms := 0, memory_usage_bytes := 0 }
    last_cleanup := 0 }

/-- Witness for `C7_cleanup_only_old_rarely_accessed_long_term` at 31 days:
the once-accessed 31-day-old segment is removed and the twice-accessed one
is retained. -/
theorem C7_cleanup_witness :
    (exLongTermCM.cleanup_old_segments (31 * 86400)).memory_manager.long_term_memory
        = exLongTermCM.memory_manager.long_term_memory.filter
            (fun p => decide ¬(p.2.timestamp < 31 * 86400 - 30 * 86400 ∧ p.2.access_count < 2))
  ∧ tmKeys (exLongTermCM.cleanup_old_segments (31 * 86400)).memory_manager.long_term_memory
        = ["hot"] := by
  constructor
  · exact (C7_cleanup_only_old_rarely_accessed_long_term exLongTermCM (31 * 86400)
      (by with_unfolding_all decide)
      (by unfold WellKeyed; with_unfolding_all decide)).2.2.1
  · with_unfolding_all decide

/-! ### Claim C3 (amended): when a second optimization pass is a no-op -/

theorem optimize_active_noop_of_empty (cm : ContextManager) (now : ℚ)
    (h : cm.memory_manager.active_memory = []) :
    cm.optimize_active_memory now = cm := by
  unfold ContextManager.optimize_active_memory
  rw [get_all_active, h]
  simp only [tmValues, List.map_nil, sortDescBy, List.foldl_nil, List.drop_nil]

/-- C3 (amended): `_optimize_active_memory` is not idempotent in general —
each call demotes the bottom 40% of whatever is active (see the
counterexample) — but a second call produces no further change when the
active tier was left empty by the first, which happens exactly when at
most one segment was active beforehand (`int(1 * 0.6) = 0` keeps nothing). -/
theorem C3_optimize_active_second_pass_noop_on_small (cm : ContextManager)
    (now1 now2 : ℚ) (hwk : WellKeyed cm.memory_manager.active_memory)
    (hlen : cm.memory_manager.active_memory.length ≤ 1) :
    ((cm.optimize_active_memory now1).optimize_active_memory now2)
      = cm.optimize_active_memory now1 := by
  have hempty : (cm.optimize_active_memory now1).memory_manager.active_memory = [] := by
    rcases hm : cm.memory_manager.active_memory with _ | ⟨⟨k, s⟩, rest⟩
    · rw [optimize_active_noop_of_empty cm now1 hm, hm]
    · rcases rest with _ | ⟨q, rest2⟩
      · have hk : k = s.id := hwk (k, s) (hm ▸ List.mem_cons_self _ _)
        unfold ContextManager.optimize_active_memory
        rw [get_all_active, hm]
        have hlen1 : (tmValues [(k, s)]).length = 1 := rfl
        have hcut1 : (pyTrunc (((tmValues [(k, s)]).length : ℚ) * (6/10))).toNat = 0 := by
          rw [hlen1]
          with_unfolding_all decide
        show (List.foldl (fun mm seg =>
            storeKnown (mm.delete MemoryTier.ACTIVE seg.id).1 MemoryTier.WORKING seg)
          cm.memory_manager
          (List.drop (pyTrunc (((tmValues [(k, s)]).length : ℚ) * (6/10))).toNat
            (sortDescBy (score_segment now1) (tmValues [(k, s)])))).active_memory = []
        rw [hcut1, List.drop_zero]
        rw [show sortDescBy (score_segment now1) (tmValues [(k, s)]) = [s] from rfl]
        rw [List.foldl_cons, List.foldl_nil, delete_active, storeKnown_working]
        show tmErase cm.memory_manager.active_memory s.id = []
        rw [hm, ← hk, tmErase_cons_self]
        rfl
      · rw [hm] at hlen
        simp at hlen
  rw [optimize_active_noop_of_empty _ now2 hempty]

/-- Witness for `C3_optimize_active_second_pass_noop_on_small` on the
single-active-segment manager `exCompress`. -/
theorem C3_optimize_active_second_pass_noop_on_small_witness :
    (exCompress.optimize_active_memory 0).optimize_active_memory 0
      = exCompress.optimize_active_memory 0 :=
  C3_optimize_active_second_pass_noop_on_small exCompress 0 0
    (by unfold WellKeyed; with_unfolding_all decide) (by with_unfolding_all decide)

/-! ### Claim C5: the reference retrieval strategy -/

/-- Descending sortedness by a key: every later element's key is at most
every earlier element's key. -/
def SortedDescBy (key : ContextSegment → ℚ) (l : List ContextSegment) : Prop :=
  List.Pairwise (fun a b => key b ≤ key a) l

theorem insertDescBy_perm (key : ContextSegment → ℚ) (s : ContextSegment)
    (l : List ContextSegment) : List.Perm (insertDescBy key s l) (s :: l) := by
  induction l with
  | nil => exact List.Perm.refl _
  | cons t ts ih =>
    unfold insertDescBy
    split
    · exact List.Perm.refl _
    · exact List.Perm.trans (List.Perm.cons t ih) (List.Perm.swap s t ts)

theorem sortFold_perm (key : ContextSegment → ℚ) (l acc : List ContextSegment) :
    List.Perm (l.foldl (fun a s => insertDescBy key s a) acc) (acc ++ l) := by
  induction l generalizing acc with
  | nil => simp
  | cons s t ih =>
    rw [List.foldl_cons]
    refine List.Perm.trans (ih _) ?_
    refine List.Perm.trans ((insertDescBy_perm key s acc).append_right t) ?_
    exact List.perm_middle.symm

theorem sortDescBy_perm (key : ContextSegment → ℚ) (l : List ContextSegment) :
    List.Perm (sortDescBy key l) l := by
  unfold sortDescBy
  simpa using sortFold_perm key l []

theorem sortedDescBy_insert (key : ContextSegment → ℚ) (s : ContextSegment)
    (l : List ContextSegment) (h : SortedDescBy key l) :
    SortedDescBy key (insertDescBy key s l) := by
  induction l with
  | nil =>
    unfold insertDescBy
    exact List.pairwise_singleton _ _
  | cons t ts ih =>
    have h1 := (List.pairwise_cons.1 h).1
    have h2 := (List.pairwise_cons.1 h).2
    unfold insertDescBy
    split
    · rename_i hlt
      refine List.pairwise_cons.2 ⟨?_, h⟩
      intro b hb
      rcases List.mem_cons.1 hb with rfl | hmem
      · exact le_of_lt hlt
      · exact le_trans (h1 b hmem) (le_of_lt hlt)
    · rename_i hnlt
      refine List.pairwise_cons.2 ⟨?_, ih h2⟩
      intro b hb
      rcases List.mem_cons.1 ((insertDescBy_perm key s ts).mem_iff.1 hb) with rfl | hmem
      · exact not_lt.1 hnlt
      · exact h1 b hmem

theorem sortFold_sorted (key : ContextSegment → ℚ) (l acc : List ContextSegment)
    (h : SortedDescBy key acc) :
    SortedDescBy key (l.foldl (fun a s => insertDescBy key s a) acc) := by
  induction l generalizing acc with
  | nil => exact h
  | cons s t ih =>
    rw [List.foldl_cons]
    exact ih _ (sortedDescBy_insert key s acc h)

theorem sortDescBy_sorted (key : ContextSegment → ℚ) (l : List ContextSegment) :
    SortedDescBy key (sortDescBy key l) :=
  sortFold_sorted key l [] List.Pairwise.nil

theorem filter_insertDescBy (key : ContextSegment → ℚ) (c : ℚ) (s : ContextSegment)
    (l : List ContextSegment) (h : SortedDescBy key l) :
    (insertDescBy key s l).filter (fun t => decide (key t = c))
      = if key s = c
        then l.filter (fun t => decide (key t = c)) ++ [s]
        else l.filter (fun t => decide (key t = c)) := by
  induction l with
  | nil =>
    unfold insertDescBy
    by_cases hs : key s = c
    · rw [if_pos hs, List.filter_cons_of_pos (by simp [hs])]
      rfl
    · rw [if_neg hs, List.filter_cons_of_neg (by simp [hs])]
  | cons t ts ih =>
    have h1 := (List.pairwise_cons.1 h).1
    have h2 := (List.pairwise_cons.1 h).2
    unfold insertDescBy
    split
    · rename_i hlt
      by_cases hs : key s = c
      · have hnone : (t :: ts).filter (fun u => decide (key u = c)) = [] := by
          rw [List.filter_eq_nil_iff]
          intro u hu
          have hle : key u ≤ key t := by
            rcases List.mem_cons.1 hu with rfl | hmem
            · exact le_refl _
            · exact h1 u hmem
          have hlt2 : key u < c := lt_of_le_of_lt hle (hs ▸ hlt)
          simp [ne_of_lt hlt2]
        rw [if_pos hs, List.filter_cons_of_pos (by simp [hs]), hnone]
        rfl
      · rw [if_neg hs, List.filter_cons_of_neg (by simp [hs])]
    · rename_i hnlt
      by_cases ht : key t = c
      · rw [List.filter_cons_of_pos (by simp [ht]), ih h2,
          List.filter_cons_of_pos (by simp [ht])]
        by_cases hs : key s = c
        · rw [if_pos hs, if_pos hs, List.cons_append]
        · rw [if_neg hs, if_neg hs]
      · rw [List.filter_cons_of_neg (by simp [ht]), ih h2,
          List.filter_cons_of_neg (by simp [ht])]

theorem sortFold_filter (key : ContextSegment → ℚ) (c : ℚ)
    (l acc : List ContextSegment) (h : SortedDescBy key acc) :
    (l.foldl (fun a s => insertDescBy key s a) acc).filter (fun t => decide (key t = c))
      = acc.filter (fun t => decide (key t = c))
        ++ l.filter (fun t => decide (key t = c)) := by
  induction l generalizing acc with
  | nil => simp
  | cons s t ih =>
    rw [List.foldl_cons, ih _ (sortedDescBy_insert key s acc h),
      filter_insertDescBy key c s acc h, List.filter_cons]
    by_cases hs : key s = c
    · rw [if_pos hs, if_pos (by simp [hs]), List.append_assoc, List.singleton_append]
    · rw [if_neg hs, if_neg (by simp [hs])]

/-- Stability of the sort: for each key value `c`, the `c`-keyed elements of
the sorted list form exactly the `c`-keyed subsequence of the input, in the
input's order. -/
theorem sortDescBy_filter_stable (key : ContextSegment → ℚ) (c : ℚ)
    (l : List ContextSegment) :
    (sortDescBy key l).filter (fun t => decide (key t = c))
      = l.filter (fun t => decide (key t = c)) := by
  unfold sortDescBy
  rw [sortFold_filter key c l [] List.Pairwise.nil]
  rfl

theorem updateSegScore_content (query_words : List String) (seg : ContextSegment) :
    (updateSegScore query_words seg).content = seg.content := by
  unfold updateSegScore
  split <;> rfl

theorem updateSegScore_score_of_pos (query_words : List String) (seg : ContextSegment)
    (h : 0 < overlapCount query_words seg.content) :
    (updateSegScore query_words seg).relevance_score
      = overlapScore query_words seg.content := by
  unfold updateSegScore
  rw [if_pos h]

theorem mem_scoredSegments (query : String) (segments : List ContextSegment)
    (seg : ContextSegment) (h : seg ∈ scoredSegments query segments) :
    0 < overlapCount (queryWordSet query) seg.content
  ∧ seg.relevance_score = overlapScore (queryWordSet query) seg.content := by
  obtain ⟨a, _, ha⟩ := List.mem_filterMap.1 h
  by_cases hc : 0 < overlapCount (queryWordSet query) a.content
  · rw [if_pos hc] at ha
    obtain rfl := Option.some.inj ha
    constructor
    · rw [updateSegScore_content]
      exact hc
    · rw [updateSegScore_score_of_pos _ _ hc, updateSegScore_content]
  · rw [if_neg hc] at ha
    exact Option.noConfusion ha

/-- Scenario A's manager: a fresh default-configured manager after
ingesting `"alpha beta gamma"`. -/
def exScenarioA : ContextManager :=
  ((ContextManager.init {} 0).add_context 0 "seg-a" "alpha beta gamma" []).1

/-- Scenario A's stored segment. -/
def exScenarioASeg : ContextSegment :=
  { id := "seg-a", content := "alpha beta gamma", metadata := [], timestamp := 0,
    relevance_score := 1, access_count := 0, compression_ratio := 1 }

/-- C5: the reference retrieval strategy (i) returns at most `limit`
segments, (ii) returns only segments with positive query overlap, each
carrying `relevanceScore = |query_words ∩ content_words| / |query_words|`
for its own content, (iii) returns them sorted descending by score,
(iv) sorts stably — for every score value the returned `c`-scored segments
keep the candidates' original relative order, (v) leaves any zero-overlap
candidate completely unchanged (its stale stored score included), and
(vi) on Scenario A — ingest `"alpha beta gamma"`, query `"beta"`, limit
5 — returns exactly that segment with score `1/1 = 1.0`. -/
theorem C5_retrieval_reference_behavior :
    (∀ query segments limit,
        (BasicRetrievalEngine.retrieveRanked query segments limit).length ≤ limit)
  ∧ (∀ query segments limit seg,
        seg ∈ BasicRetrievalEngine.retrieveRanked query segments limit →
          0 < overlapCount (queryWordSet query) seg.content
        ∧ seg.relevance_score = overlapScore (queryWordSet query) seg.content)
  ∧ (∀ query segments limit,
        SortedDescBy (fun s => s.relevance_score)
          (BasicRetrievalEngine.retrieveRanked query segments limit))
  ∧ (∀ query segments c,
        (sortDescBy (fun s => s.relevance_score) (scoredSegments query segments)).filter
            (fun t => decide (t.relevance_score = c))
          = (scoredSegments query segments).filter
              (fun t => decide (t.relevance_score = c)))
  ∧ (∀ query_words seg, overlapCount query_words seg.content = 0 →
        updateSegScore query_words seg = seg)
  ∧ ((exScenarioA.retrieve_relevant "beta" 5 0).2.map
        (fun s => (s.id, s.relevance_score)) = [("seg-a", 1)]) := by
  refine ⟨?_, ?_, ?_, ?_, ?_, ?_⟩
  · intro query segments limit
    unfold BasicRetrievalEngine.retrieveRanked
    rw [List.length_take]
    exact min_le_left _ _
  · intro query segments limit seg hmem
    unfold BasicRetrievalEngine.retrieveRanked at hmem
    have h1 : seg ∈ sortDescBy (fun s => s.relevance_score) (scoredSegments query segments) :=
      List.mem_of_mem_take hmem
    have h2 : seg ∈ scoredSegments query segments :=
      (sortDescBy_perm _ _).mem_iff.1 h1
    exact mem_scoredSegments query segments seg h2
  · intro query segments limit
    unfold BasicRetrievalEngine.retrieveRanked
    exact (sortDescBy_sorted (fun s => s.relevance_score)
      (scoredSegments query segments)).sublist (List.take_sublist _ _)
  · intro query segments c
    exact sortDescBy_filter_stable (fun s => s.relevance_score) c
      (scoredSegments query segments)
  · intro query_words seg h
    unfold updateSegScore
    rw [if_neg (by omega)]
  · with_unfolding_all decide

/-- Witness for `C5_retrieval_reference_behavior`: parts (i) and (ii)
instantiated at Scenario A's concrete candidate list. -/
theorem C5_retrieval_reference_behavior_witness :
    (BasicRetrievalEngine.retrieveRanked "beta" [exScenarioASeg] 5).length ≤ 5
  ∧ (0 < overlapCount (queryWordSet "beta") exScenarioASeg.content
      ∧ exScenarioASeg.relevance_score
          = overlapScore (queryWordSet "beta") exScenarioASeg.content) := by
  refine ⟨C5_retrieval_reference_behavior.1 "beta" [exScenarioASeg] 5,
    C5_retrieval_reference_behavior.2.1 "beta" [exScenarioASeg] 5 exScenarioASeg ?_⟩
  with_unfolding_all decide

/-! ### Claim C4: tier disjointness along every operation sequence -/

theorem tmGet_isSome_of_mem {m : TierMap} {sid : String} (h : sid ∈ tmKeys m) :
    ∃ s, tmGet m sid = some s := by
  induction m with
  | nil => simp [tmKeys] at h
  | cons p rest ih =>
    obtain ⟨k, v⟩ := p
    by_cases hk : k = sid
    · subst hk
      exact ⟨v, tmGet_cons_self⟩
    · rw [tmKeys_cons, List.mem_cons] at h
      rcases h with h | h
      · exact absurd h.symm hk
      · obtain ⟨s, hs⟩ := ih h
        exact ⟨s, by rw [tmGet_cons_ne hk]; exact hs⟩

theorem not_mem_of_tmGet_eq_none {m : TierMap} {sid : String}
    (h : tmGet m sid = none) : sid ∉ tmKeys m := by
  intro hmem
  obtain ⟨s, hs⟩ := tmGet_isSome_of_mem hmem
  rw [hs] at h
  exact Option.noConfusion h

theorem tmGet_id {m : TierMap} {sid : String} {s : ContextSegment}
    (hwk : WellKeyed m) (h : tmGet m sid = some s) : s.id = sid := by
  induction m with
  | nil => exact Option.noConfusion h
  | cons p rest ih =>
    obtain ⟨k, v⟩ := p
    by_cases hk : k = sid
    · subst hk
      rw [tmGet_cons_self] at h
      have hv : v = s := Option.some.inj h
      have hkv : k = v.id := hwk (k, v) (List.mem_cons_self _ _)
      rw [← hv, ← hkv]
    · rw [tmGet_cons_ne hk] at h
      exact ih (fun q hq => hwk q (List.mem_cons_of_mem _ hq)) h

/-- The structural facts every reachable tier store satisfies: each tier
dictionary has unique keys, keys each segment under its own id, and no id
lives in two tiers. -/
structure MMInv (mm : MemoryManager) : Prop where
  ndA : (tmKeys mm.active_memory).Nodup
  ndW : (tmKeys mm.working_memory).Nodup
  ndL : (tmKeys mm.long_term_memory).Nodup
  wkA : WellKeyed mm.active_memory
  wkW : WellKeyed mm.working_memory
  wkL : WellKeyed mm.long_term_memory
  dAW : ∀ x, x ∈ tmKeys mm.active_memory → x ∉ tmKeys mm.working_memory
  dAL : ∀ x, x ∈ tmKeys mm.active_memory → x ∉ tmKeys mm.long_term_memory
  dWL : ∀ x, x ∈ tmKeys mm.working_memory → x ∉ tmKeys mm.long_term_memory

theorem MMInv_init (cfg : ContextConfig) (now : ℚ) :
    MMInv (ContextManager.init cfg now).memory_manager := by
  refine ⟨List.nodup_nil, List.nodup_nil, List.nodup_nil,
    wellKeyed_nil, wellKeyed_nil, wellKeyed_nil, ?_, ?_, ?_⟩ <;>
    exact fun x hx => absurd hx (List.not_mem_nil x)

theorem MMInv_insert_active {mm : MemoryManager} {sid : String} {seg : ContextSegment}
    (inv : MMInv mm) (hkey : seg.id = sid)
    (hw : sid ∉ tmKeys mm.working_memory) (hl : sid ∉ tmKeys mm.long_term_memory) :
    MMInv { mm with active_memory := tmInsert mm.active_memory sid seg } := by
  refine ⟨nodup_tmKeys_tmInsert seg inv.ndA, inv.ndW, inv.ndL,
    wellKeyed_tmInsert inv.wkA hkey, inv.wkW, inv.wkL, ?_, ?_, inv.dWL⟩
  · intro x hx
    rcases mem_tmKeys_tmInsert.1 hx with hx | rfl
    · exact inv.dAW x hx
    · exact hw
  · intro x hx
    rcases mem_tmKeys_tmInsert.1 hx with hx | rfl
    · exact inv.dAL x hx
    · exact hl

theorem MMInv_insert_working {mm : MemoryManager} {sid : String} {seg : ContextSegment}
    (inv : MMInv mm) (hkey : seg.id = sid)
    (ha : sid ∉ tmKeys mm.active_memory) (hl : sid ∉ tmKeys mm.long_term_memory) :
    MMInv { mm with working_memory := tmInsert mm.working_memory sid seg } := by
  refine ⟨inv.ndA, nodup_tmKeys_tmInsert seg inv.ndW, inv.ndL,
    inv.wkA, wellKeyed_tmInsert inv.wkW hkey, inv.wkL, ?_, inv.dAL, ?_⟩
  · intro x hx hmem
    rcases mem_tmKeys_tmInsert.1 hmem with hm | rfl
    · exact inv.dAW x hx hm
    · exact ha hx
  · intro x hx
    rcases mem_tmKeys_tmInsert.1 hx with hx | rfl
    · exact inv.dWL x hx
    · exact hl

theorem MMInv_insert_long_term {mm : MemoryManager} {sid : String} {seg : ContextSegment}
    (inv : MMInv mm) (hkey : seg.id = sid)
    (ha : sid ∉ tmKeys mm.active_memory) (hw : sid ∉ tmKeys mm.working_memory) :
    MMInv { mm with long_term_memory := tmInsert mm.long_term_memory sid seg } := by
  refine ⟨inv.ndA, inv.ndW, nodup_tmKeys_tmInsert seg inv.ndL,
    inv.wkA, inv.wkW, wellKeyed_tmInsert inv.wkL hkey, inv.dAW, ?_, ?_⟩
  · intro x hx hmem
    rcases mem_tmKeys_tmInsert.1 hmem with hm | rfl
    · exact inv.dAL x hx hm
    · exact ha hx
  · intro x hx hmem
    rcases mem_tmKeys_tmInsert.1 hmem with hm | rfl
    · exact inv.dWL x hx hm
    · exact hw hx

theorem MMInv_erase_active {mm : MemoryManager} {sid : String} (inv : MMInv mm) :
    MMInv { mm with active_memory := tmErase mm.active_memory sid } := by
  refine ⟨nodup_tmKeys_tmErase sid inv.ndA, inv.ndW, inv.ndL,
    wellKeyed_tmErase inv.wkA, inv.wkW, inv.wkL, ?_, ?_, inv.dWL⟩
  · exact fun x hx => inv.dAW x (mem_tmKeys_tmErase.1 hx).1
  · exact fun x hx => inv.dAL x (mem_tmKeys_tmErase.1 hx).1

theorem MMInv_erase_working {mm : MemoryManager} {sid : String} (inv : MMInv mm) :
    MMInv { mm with working_memory := tmErase mm.working_memory sid } := by
  refine ⟨inv.ndA, nodup_tmKeys_tmErase sid inv.ndW, inv.ndL,
    inv.wkA, wellKeyed_tmErase inv.wkW, inv.wkL, ?_, inv.dAL, ?_⟩
  · exact fun x hx hm => inv.dAW x hx (mem_tmKeys_tmErase.1 hm).1
  · exact fun x hx => inv.dWL x (mem_tmKeys_tmErase.1 hx).1

theorem MMInv_erase_long_term {mm : MemoryManager} {sid : String} (inv : MMInv mm) :
    MMInv { mm with long_term_memory := tmErase mm.long_term_memory sid } := by
  refine ⟨inv.ndA, inv.ndW, nodup_tmKeys_tmErase sid inv.ndL,
    inv.wkA, inv.wkW, wellKeyed_tmErase inv.wkL, inv.dAW, ?_, ?_⟩
  · exact fun x hx hm => inv.dAL x hx (mem_tmKeys_tmErase.1 hm).1
  · exact fun x hx hm => inv.dWL x hx (mem_tmKeys_tmErase.1 hm).1

theorem optimizeFold_inv (l : List ContextSegment) (mm : MemoryManager)
    (inv : MMInv mm) (hl : ∀ s ∈ l, s.id ∉ tmKeys mm.long_term_memory) :
    MMInv (l.foldl (fun mm seg =>
      storeKnown (mm.delete MemoryTier.ACTIVE seg.id).1 MemoryTier.WORKING seg) mm) := by
  induction l generalizing mm with
  | nil => exact inv
  | cons a t ih =>
    rw [List.foldl_cons, delete_active, storeKnown_working]
    apply ih
    · refine MMInv_insert_working (MMInv_erase_active inv) rfl ?_ ?_
      · exact fun hmem => (mem_tmKeys_tmErase.1 hmem).2 rfl
      · exact hl a (List.mem_cons_self a t)
    · exact fun s hs => hl s (List.mem_cons_of_mem a hs)

theorem MMInv_optimize_active (cm : ContextManager) (now : ℚ)
    (inv : MMInv cm.memory_manager) :
    MMInv (cm.optimize_active_memory now).memory_manager := by
  unfold ContextManager.optimize_active_memory
  rw [get_all_active]
  apply optimizeFold_inv _ _ inv
  intro s hs
  have h1 : s ∈ sortDescBy (score_segment now) (tmValues cm.memory_manager.active_memory) :=
    List.mem_of_mem_drop hs
  have h2 : s ∈ tmValues cm.memory_manager.active_memory :=
    (sortDescBy_perm _ _).mem_iff.1 h1
  exact inv.dAL s.id (mem_tmKeys_of_mem_tmValues inv.wkA h2)

theorem MMInv_maybe_optimize (cm : ContextManager) (now : ℚ)
    (inv : MMInv cm.memory_manager) :
    MMInv (cm.maybe_optimize_memory now).memory_manager := by
  unfold ContextManager.maybe_optimize_memory
  show MMInv (if cm.config.max_context_size
      < ((cm.memory_manager.get_all_segments MemoryTier.ACTIVE).map
          (fun s => s.content.length)).sum
    then cm.optimize_active_memory now else cm).memory_manager
  split
  · exact MMInv_optimize_active cm now inv
  · exact inv

theorem MMInv_add_context (cm : ContextManager) (now : ℚ)
    (segment_id content : String) (metadata : List (String × String))
    (inv : MMInv cm.memory_manager)
    (hW : segment_id ∉ tmKeys cm.memory_manager.working_memory)
    (hL : segment_id ∉ tmKeys cm.memory_manager.long_term_memory) :
    MMInv (cm.add_context now segment_id content metadata).1.memory_manager := by
  unfold ContextManager.add_context
  apply MMInv_maybe_optimize
  rw [storeKnown_active]
  exact MMInv_insert_active inv rfl hW hL

theorem MMInv_compress_context (cm : ContextManager) (segment_id : String)
    (inv : MMInv cm.memory_manager) :
    MMInv (cm.compress_context segment_id).1.memory_manager := by
  cases hA : tmGet cm.memory_manager.active_memory segment_id with
  | some s =>
    have hid : s.id = segment_id := tmGet_id inv.wkA hA
    have hmem : segment_id ∈ tmKeys cm.memory_manager.active_memory :=
      mem_of_tmGet_eq_some hA
    have hw := inv.dAW segment_id hmem
    have hl := inv.dAL segment_id hmem
    rw [compress_context_eq_of_findSegment cm segment_id _ _ _
      (findSegment_active cm.memory_manager segment_id s hA)]
    show MMInv (storeKnown { cm.memory_manager with
      active_memory := tmInsert cm.memory_manager.active_memory segment_id (incAccess s) }
      MemoryTier.ACTIVE (compressedSeg cm (incAccess s)))
    rw [storeKnown_active]
    refine MMInv_insert_active (MMInv_insert_active inv (by rw [incAccess_id, hid]) hw hl)
      rfl ?_ ?_
    · rw [compressedSeg_id, incAccess_id, hid]
      exact hw
    · rw [compressedSeg_id, incAccess_id, hid]
      exact hl
  | none =>
    cases hW : tmGet cm.memory_manager.working_memory segment_id with
    | some s =>
      have hid : s.id = segment_id := tmGet_id inv.wkW hW
      have hmem : segment_id ∈ tmKeys cm.memory_manager.working_memory :=
        mem_of_tmGet_eq_some hW
      have ha := not_mem_of_tmGet_eq_none hA
      have hl := inv.dWL segment_id hmem
      rw [compress_context_eq_of_findSegment cm segment_id _ _ _
        (findSegment_working cm.memory_manager segment_id s hA hW)]
      show MMInv (storeKnown { cm.memory_manager with
        working_memory := tmInsert cm.memory_manager.working_memory segment_id (incAccess s) }
        MemoryTier.WORKING (compressedSeg cm (incAccess s)))
      rw [storeKnown_working]
      refine MMInv_insert_working (MMInv_insert_working inv (by rw [incAccess_id, hid]) ha hl)
        rfl ?_ ?_
      · rw [compressedSeg_id, incAccess_id, hid]
        exact ha
      · rw [compressedSeg_id, incAccess_id, hid]
        exact hl
    | none =>
      cases hL : tmGet cm.memory_manager.long_term_memory segment_id with
      | some s =>
        have hid : s.id = segment_id := tmGet_id inv.wkL hL
        have ha := not_mem_of_tmGet_eq_none hA
        have hw := not_mem_of_tmGet_eq_none hW
        rw [compress_context_eq_of_findSegment cm segment_id _ _ _
          (findSegment_long_term cm.memory_manager segment_id s hA hW hL)]
        show MMInv (storeKnown { cm.memory_manager with
          long_term_memory :=
            tmInsert cm.memory_manager.long_term_memory segment_id (incAccess s) }
          MemoryTier.LONG_TERM (compressedSeg cm (incAccess s)))
        rw [storeKnown_long_term]
        refine MMInv_insert_long_term
          (MMInv_insert_long_term inv (by rw [incAccess_id, hid]) ha hw) rfl ?_ ?_
        · rw [compressedSeg_id, incAccess_id, hid]
          exact ha
        · rw [compressedSeg_id, incAccess_id, hid]
          exact hw
      | none =>
        unfold ContextManager.compress_context
        rw [findSegment_none cm.memory_manager segment_id hA hW hL]
        exact inv

theorem MMInv_remove_context (cm : ContextManager) (segment_id : String)
    (inv : MMInv cm.memory_manager) :
    MMInv (cm.remove_context segment_id).1.memory_manager := by
  unfold ContextManager.remove_context
  simp only [delete_active, delete_working, delete_long_term]
  split
  · exact MMInv_erase_active inv
  · split
    · exact MMInv_erase_working (MMInv_erase_active inv)
    · split
      · exact MMInv_erase_long_term (MMInv_erase_working (MMInv_erase_active inv))
      · exact MMInv_erase_long_term (MMInv_erase_working (MMInv_erase_active inv))

theorem cleanupFold_inv (cutoff : ℚ) (l : List ContextSegment) (mm : MemoryManager)
    (inv : MMInv mm) :
    MMInv (l.foldl (fun mm seg =>
      if seg.timestamp < cutoff ∧ seg.access_count < 2
      then (mm.delete MemoryTier.LONG_TERM seg.id).1 else mm) mm) := by
  induction l generalizing mm with
  | nil => exact inv
  | cons a t ih =>
    rw [List.foldl_cons]
    apply ih
    by_cases hc : a.timestamp < cutoff ∧ a.access_count < 2
    · rw [if_pos hc, delete_long_term]
      exact MMInv_erase_long_term inv
    · rw [if_neg hc]
      exact inv

theorem MMInv_cleanup (cm : ContextManager) (now : ℚ) (inv : MMInv cm.memory_manager) :
    MMInv (cm.cleanup_old_segments now).memory_manager := by
  unfold ContextManager.cleanup_old_segments
  rw [get_all_long_term]
  exact cleanupFold_inv _ _ _ inv

/-- One mutating controller operation, from the fixed repertoire the claim
quantifies over; `add_context` carries the freshness assumption on the
generated id. -/
inductive ControllerStep : ContextManager → ContextManager → Prop
  | add_context (cm : ContextManager) (now : ℚ) (segment_id content : String)
      (metadata : List (String × String))
      (hA : segment_id ∉ tmKeys cm.memory_manager.active_memory)
      (hW : segment_id ∉ tmKeys cm.memory_manager.working_memory)
      (hL : segment_id ∉ tmKeys cm.memory_manager.long_term_memory) :
      ControllerStep cm (cm.add_context now segment_id content metadata).1
  | optimize_active_memory (cm : ContextManager) (now : ℚ) :
      ControllerStep cm (cm.optimize_active_memory now)
  | compress_context (cm : ContextManager) (segment_id : String) :
      ControllerStep cm (cm.compress_context segment_id).1
  | remove_context (cm : ContextManager) (segment_id : String) :
      ControllerStep cm (cm.remove_context segment_id).1
  | cleanup_old_segments (cm : ContextManager) (now : ℚ) :
      ControllerStep cm (cm.cleanup_old_segments now)

theorem MMInv_step {cm cm' : ContextManager} (h : ControllerStep cm cm')
    (inv : MMInv cm.memory_manager) : MMInv cm'.memory_manager := by
  cases h with
  | add_context now segment_id content metadata hA hW hL =>
    exact MMInv_add_context cm now segment_id content metadata inv hW hL
  | optimize_active_memory now => exact MMInv_optimize_active cm now inv
  | compress_context segment_id => exact MMInv_compress_context cm segment_id inv
  | remove_context segment_id => exact MMInv_remove_context cm segment_id inv
  | cleanup_old_segments now => exact MMInv_cleanup cm now inv

/-- "The id appears in at most one of the three tier collections". -/
def InAtMostOneTier (mm : MemoryManager) : Prop :=
  ∀ sid : String,
    ((if sid ∈ tmKeys mm.active_memory then 1 else 0)
      + (if sid ∈ tmKeys mm.working_memory then 1 else 0)
      + (if sid ∈ tmKeys mm.long_term_memory then 1 else 0) : ℕ) ≤ 1

theorem MMInv.atMostOne {mm : MemoryManager} (inv : MMInv mm) : InAtMostOneTier mm := by
  intro sid
  by_cases hA : sid ∈ tmKeys mm.active_memory
  · rw [if_pos hA, if_neg (inv.dAW sid hA), if_neg (inv.dAL sid hA)]
  · rw [if_neg hA]
    by_cases hW : sid ∈ tmKeys mm.working_memory
    · rw [if_pos hW, if_neg (inv.dWL sid hW)]
    · rw [if_neg hW]
      split <;> omega

/-- C4: starting from a freshly constructed controller and applying any
sequence of the mutating operations (`add_context` with fresh generated
ids, `_optimize_active_memory`, `compress_context`, `remove_context`,
`_cleanup_old_segments`), every segment id is present in at most one of
the three tier collections at every observation point. -/
theorem C4_segment_in_at_most_one_tier (cfg : ContextConfig) (now0 : ℚ)
    (cm : ContextManager)
    (h : Relation.ReflTransGen ControllerStep (ContextManager.init cfg now0) cm) :
    InAtMostOneTier cm.memory_manager := by
  have hinv : MMInv cm.memory_manager := by
    induction h with
    | refl => exact MMInv_init cfg now0
    | tail _ hstep ih => exact MMInv_step hstep ih
  exact hinv.atMostOne

/-- Witness for `C4_segment_in_at_most_one_tier`: the state reached from a
fresh manager by one `add_context` step. -/
theorem C4_segment_in_at_most_one_tier_witness :
    InAtMostOneTier
      ((ContextManager.init {} 0).add_context 0 "w1" "hello" []).1.memory_manager :=
  C4_segment_in_at_most_one_tier {} 0 _
    (Relation.ReflTransGen.tail Relation.ReflTransGen.refl
      (ControllerStep.add_context (ContextManager.init {} 0) 0 "w1" "hello" []
        (by decide) (by decide) (by decide)))

end BasicContextManager
